import Mathlib

/-!
Shallow embedding of the task-queue engine of the `loop` repository.

The definitions below are hand-translations of:
  * src/src/queue/repository.ts   (QueueRepository and helpers)
  * src/src/worker/execute-runner.ts (RunStreamer, ToolExecutor)
  * src/unnamed/part_014          (worker job runner: evaluateVerifyPass,
                                   getByPath, computeIdempotencyKey,
                                   pushRunEvent, interpret gate)

Impure ingredients of the source are made explicit parameters:
  * `nowIso()` and lease-expiry timestamps are threaded as `String`
    arguments (SQLite compares the stored ISO-8601 strings byte-wise;
    Lean's `String` order agrees with it on ASCII timestamps);
  * `randomUUID()` becomes an explicit `id` argument;
  * `createHash("sha256")...digest("hex")` becomes an explicit
    `hash : String → String` argument (the claims only constrain which
    canonical string is hashed).
-/

namespace LoopSpec

/-- JSON values (`unknown` objects of the TypeScript source).  Numbers are
restricted to integers, which covers every value the verified code paths
construct or inspect. -/
inductive Json where
  | null : Json
  | bool (b : Bool) : Json
  | num (n : Int) : Json
  | str (s : String) : Json
  | arr (elems : List Json) : Json
  | obj (fields : List (String × Json)) : Json
deriving Repr

/-- Field lookup on a JSON object, `none` when the receiver is not an
object or the key is absent (JavaScript `undefined`). -/
def Json.getField : Json → String → Option Json
  | Json.obj fields, key =>
      match fields.find? (fun kv => decide (kv.1 = key)) with
      | some kv => some kv.2
      | none => none
  | _, _ => none

/-- One escaped character of `JSON.stringify` string output. -/
def escapeJsonChar (c : Char) : String :=
  if c = Char.ofNat 34 then "\\\""
  else if c = Char.ofNat 92 then "\\\\"
  else if c = Char.ofNat 10 then "\\n"
  else if c = Char.ofNat 13 then "\\r"
  else if c = Char.ofNat 9 then "\\t"
  else if c = Char.ofNat 8 then "\\b"
  else if c = Char.ofNat 12 then "\\f"
  else if c.toNat < 32 then
    "\\u00" ++ String.mk [Nat.digitChar (c.toNat / 16), Nat.digitChar (c.toNat % 16)]
  else String.singleton c

/-- `JSON.stringify` of a string value. -/
def encodeJsonString (s : String) : String :=
  "\"" ++ String.join (s.toList.map escapeJsonChar) ++ "\""

mutual

/-- `JSON.stringify` for the embedded JSON values. -/
def jsonEncode : Json → String
  | Json.null => "null"
  | Json.bool true => "true"
  | Json.bool false => "false"
  | Json.num n => toString n
  | Json.str s => encodeJsonString s
  | Json.arr elems => "[" ++ jsonEncodeArr elems ++ "]"
  | Json.obj fields => "\x7b" ++ jsonEncodeObj fields ++ "\x7d"

def jsonEncodeArr : List Json → String
  | [] => ""
  | [x] => jsonEncode x
  | x :: rest => jsonEncode x ++ "," ++ jsonEncodeArr rest

def jsonEncodeObj : List (String × Json) → String
  | [] => ""
  | [kv] => encodeJsonString kv.1 ++ ":" ++ jsonEncode kv.2
  | kv :: rest => encodeJsonString kv.1 ++ ":" ++ jsonEncode kv.2 ++ "," ++ jsonEncodeObj rest

end

/-! ### Queue row types (src/src/queue/types.ts) -/

inductive TaskStatus where
  | queued | leased | running | done | failed | blocked
deriving DecidableEq, Repr

inductive AttemptStatus where
  | running | done | failed | blocked
deriving DecidableEq, Repr

inductive EventLevel where
  | info | warn | error
deriving DecidableEq, Repr

structure TaskRow where
  id : String
  type : String
  title : String
  prompt : String
  success_criteria : Option String
  task_request_json : String
  status : TaskStatus
  priority : Int
  attempt_count : Nat
  max_attempts : Nat
  lease_owner : Option String
  lease_expires_at : Option String
  last_error : Option String
  created_at : String
  updated_at : String
deriving DecidableEq, Repr

structure TaskAttemptRow where
  id : Nat
  task_id : String
  attempt_no : Nat
  lease_owner : String
  lease_expires_at : String
  status : AttemptStatus
  phase : String
  output_json : String
  started_at : String
  finished_at : Option String
deriving DecidableEq, Repr

/-- Event rows.  Every repository write routes its payload through
`envelopeEventData`, whose distinguishing argument is the event name; the
row keeps that name alongside the SQL columns the claims mention. -/
structure EventRow where
  task_id : Option String
  attempt_id : Option Nat
  phase : String
  level : EventLevel
  message : String
  event_name : String
  created_at : String
deriving DecidableEq, Repr

structure CompleteAttemptInput where
  workerExitCode : Option Int
  outputJson : Json
  finalPhase : String
  succeeded : Bool
  blocked : Bool
  errorMessage : Option String
  finishedAt : String

structure CreateTaskInput where
  type : Option String
  title : Option String
  prompt : String
  successCriteria : Option String
  metadata : Option Json
  mode : Option String
  priority : Option Int
  maxAttempts : Option Int

/-- The SQLite database contents touched by the repository.  Lists keep
table (rowid/insertion) order; `nextAttemptId` models the AUTOINCREMENT
key of `task_attempts`. -/
structure Store where
  tasks : List TaskRow
  attempts : List TaskAttemptRow
  events : List EventRow
  nextAttemptId : Nat
deriving Repr

/-! ### QueueRepository (src/src/queue/repository.ts) -/

/-- SQL predicate status IN ('leased', 'running'). -/
def TaskStatus.isLeasedOrRunning : TaskStatus → Bool
  | TaskStatus.leased => true
  | TaskStatus.running => true
  | _ => false

/-- Lexicographic comparison of character sequences by code point: the
BINARY collation SQLite applies to TEXT comparisons (on the ASCII ISO-8601
timestamps of this schema, byte order and code-point order agree). -/
def listLtB : List Char → List Char → Bool
  | [], [] => false
  | [], _ :: _ => true
  | _ :: _, [] => false
  | a :: as, b :: bs =>
      if a.toNat < b.toNat then true
      else if b.toNat < a.toNat then false
      else listLtB as bs

/-- SQLite TEXT comparison a < b. -/
def strLt (a b : String) : Bool :=
  listLtB a.toList b.toList

/-- lease_expires_at IS NOT NULL AND lease_expires_at < now. -/
def leaseExpiredBefore (t : TaskRow) (now : String) : Bool :=
  match t.lease_expires_at with
  | some e => strLt e now
  | none => false

/-- WHERE clause of the expiry sweep in recoverExpiredLeases. -/
def expiredGuard (now : String) (t : TaskRow) : Bool :=
  t.status.isLeasedOrRunning && leaseExpiredBefore t now

/-- getTaskById: SELECT * FROM tasks WHERE id = ?. -/
def lookupTask (s : Store) (id : String) : Option TaskRow :=
  s.tasks.find? (fun t => decide (t.id = id))

/-- Per-task UPDATE of recoverExpiredLeases. -/
def recoverRow (now : String) (t : TaskRow) : TaskRow :=
  let nextAttempt := t.attempt_count + 1
  { t with
    status := if nextAttempt ≥ t.max_attempts then TaskStatus.failed else TaskStatus.queued
    attempt_count := nextAttempt
    lease_owner := none
    lease_expires_at := none
    last_error := some "Lease expired before completion"
    updated_at := now }

def leaseExpiredEvent (taskId now : String) : EventRow :=
  { task_id := some taskId, attempt_id := none, phase := "lease", level := EventLevel.warn,
    message := "Lease expired", event_name := "lease_expired", created_at := now }

/-- QueueRepository.recoverExpiredLeases.  The source snapshots the expired
rows and then updates each snapshot row by its primary key; since ids are
the primary key this updates exactly the rows satisfying the expiry guard,
and appends one lease_expired event per expired row in table order. -/
def recoverExpiredLeases (s : Store) (now : String) : Store × Nat :=
  let expired := s.tasks.filter (expiredGuard now)
  ({ s with
      tasks := s.tasks.map (fun t => if expiredGuard now t then recoverRow now t else t)
      events := s.events ++ expired.map (fun t => leaseExpiredEvent t.id now) },
   expired.length)

/-- Strict comparison realised by ORDER BY priority ASC, created_at ASC. -/
def claimLt (a b : TaskRow) : Bool :=
  decide (a.priority < b.priority) ||
    (decide (a.priority = b.priority) && strLt a.created_at b.created_at)

/-- Keep the best (least under claimLt) row seen so far; on a tie the
earlier row is kept. -/
def claimFoldStep (best : Option TaskRow) (t : TaskRow) : Option TaskRow :=
  match best with
  | none => some t
  | some b => if claimLt t b then some t else some b

/-- SELECT id FROM tasks WHERE status = 'queued'
    ORDER BY priority ASC, created_at ASC LIMIT 1.
The ORDER BY names no id key, so rows tied on (priority, created_at) keep
their table-scan (insertion) order and the first tied row wins. -/
def selectCandidate (tasks : List TaskRow) : Option TaskRow :=
  (tasks.filter (fun t => decide (t.status = TaskStatus.queued))).foldl
    claimFoldStep none

def taskLeasedEvent (taskId now : String) : EventRow :=
  { task_id := some taskId, attempt_id := none, phase := "lease", level := EventLevel.info,
    message := "Task leased", event_name := "task_leased", created_at := now }

/-- WHERE clause of the conditional claim UPDATE:
WHERE id = ? AND status = 'queued'. -/
def claimHit (candId : String) (t : TaskRow) : Bool :=
  decide (t.id = candId ∧ t.status = TaskStatus.queued)

/-- SET clause of the claim UPDATE. -/
def claimLeaseUpdate (workerId now leaseExpiresAt : String) (t : TaskRow) : TaskRow :=
  { t with status := TaskStatus.leased, lease_owner := some workerId,
           lease_expires_at := some leaseExpiresAt, updated_at := now }

/-- QueueRepository.claimNextTask: recover expired leases, pick the
candidate, run the conditional UPDATE (WHERE id = ? AND status = 'queued'),
and return the re-read row when exactly one row changed. -/
def claimNextTask (s : Store) (workerId : String) (now leaseExpiresAt : String) :
    Store × Option TaskRow :=
  let s1 := (recoverExpiredLeases s now).1
  match selectCandidate s1.tasks with
  | none => (s1, none)
  | some cand =>
    let s2 := { s1 with
      tasks := s1.tasks.map (fun t =>
        if claimHit cand.id t then claimLeaseUpdate workerId now leaseExpiresAt t else t) }
    if (s1.tasks.filter (claimHit cand.id)).length ≠ 1 then (s2, none)
    else
      let s3 := { s2 with events := s2.events ++ [taskLeasedEvent cand.id now] }
      (s3, lookupTask s3 cand.id)

/-- Guard used by startAttempt: WHERE id = ? AND lease_owner = ? AND status = 'leased'. -/
def startGuard (taskId workerId : String) (t : TaskRow) : Bool :=
  decide (t.id = taskId ∧ t.lease_owner = some workerId ∧ t.status = TaskStatus.leased)

/-- QueueRepository.startAttempt.  The UPDATE runs WHERE id = ?; ids are
the primary key, so it hits exactly the row selected by the guard. -/
def startAttempt (s : Store) (taskId workerId : String) (now : String) :
    Store × Option (Nat × Nat × String) :=
  match s.tasks.find? (startGuard taskId workerId) with
  | none => (s, none)
  | some task =>
    match task.lease_expires_at with
    | none => (s, none)
    | some leaseExp =>
      let attemptNo := task.attempt_count + 1
      let tasks2 := s.tasks.map (fun t =>
        if startGuard taskId workerId t then
          { t with status := TaskStatus.running, updated_at := now }
        else t)
      let attemptId := s.nextAttemptId
      let attemptRow : TaskAttemptRow :=
        { id := attemptId, task_id := taskId, attempt_no := attemptNo,
          lease_owner := workerId, lease_expires_at := leaseExp,
          status := AttemptStatus.running, phase := "preflight",
          output_json := "\x7b\x7d", started_at := now, finished_at := none }
      let ev : EventRow :=
        { task_id := some taskId, attempt_id := some attemptId, phase := "preflight",
          level := EventLevel.info, message := "Attempt started",
          event_name := "attempt_started", created_at := now }
      ({ s with tasks := tasks2, attempts := s.attempts ++ [attemptRow],
                events := s.events ++ [ev], nextAttemptId := s.nextAttemptId + 1 },
       some (attemptNo, attemptId, leaseExp))

/-- Guard of the task UPDATE in heartbeatLease:
WHERE id = ? AND lease_owner = ? AND status IN ('leased', 'running'). -/
def heartbeatGuard (taskId workerId : String) (t : TaskRow) : Bool :=
  decide (t.id = taskId ∧ t.lease_owner = some workerId ∧
    (t.status = TaskStatus.leased ∨ t.status = TaskStatus.running))

/-- QueueRepository.heartbeatLease: refresh the task lease, then refresh
the latest (highest attempt_no) running attempt of the same owner. -/
def heartbeatLease (s : Store) (taskId workerId : String) (leaseExpiresAt now : String) :
    Store :=
  let tasks2 := s.tasks.map (fun t =>
    if heartbeatGuard taskId workerId t then
      { t with lease_expires_at := some leaseExpiresAt, updated_at := now }
    else t)
  let attemptHit := fun (a : TaskAttemptRow) =>
    decide (a.task_id = taskId ∧ a.lease_owner = workerId ∧ a.status = AttemptStatus.running)
  let target := s.attempts.foldl
    (fun best a =>
      if attemptHit a then
        match best with
        | none => some a
        | some b => if decide (a.attempt_no > b.attempt_no) then some a else some b
      else best)
    none
  let attempts2 :=
    match target with
    | none => s.attempts
    | some b => s.attempts.map (fun a =>
        if decide (a.id = b.id) then { a with lease_expires_at := leaseExpiresAt } else a)
  { s with tasks := tasks2, attempts := attempts2 }

/-- Guard of completeAttempt:
WHERE id = ? AND lease_owner = ? AND status IN ('leased', 'running'). -/
def completeGuard (taskId workerId : String) (t : TaskRow) : Bool :=
  decide (t.id = taskId ∧ t.lease_owner = some workerId ∧
    (t.status = TaskStatus.leased ∨ t.status = TaskStatus.running))

/-- Task-row UPDATE applied by completeAttempt; nextStatus and attemptNo
are computed from the selected row. -/
def completeTaskUpdate (result : CompleteAttemptInput) (attemptNo maxAttempts : Nat)
    (t : TaskRow) : TaskRow :=
  let nextStatus : TaskStatus :=
    if result.blocked then TaskStatus.blocked
    else if result.succeeded then TaskStatus.done
    else if attemptNo ≥ maxAttempts then TaskStatus.failed
    else TaskStatus.queued
  { t with status := nextStatus, attempt_count := attemptNo,
           lease_owner := none, lease_expires_at := none,
           last_error := result.errorMessage, updated_at := result.finishedAt }

/-- QueueRepository.completeAttempt. -/
def completeAttempt (s : Store) (taskId workerId : String)
    (result : CompleteAttemptInput) (now : String) : Store :=
  match s.tasks.find? (completeGuard taskId workerId) with
  | none => s
  | some task =>
    let attemptNo := task.attempt_count + 1
    let attempt := s.attempts.find? (fun a => decide (a.task_id = taskId ∧ a.attempt_no = attemptNo))
    let attemptStatus : AttemptStatus :=
      if result.blocked then AttemptStatus.blocked
      else if result.succeeded then AttemptStatus.done
      else AttemptStatus.failed
    let attempts2 :=
      match attempt with
      | none => s.attempts
      | some a => s.attempts.map (fun x =>
          if decide (x.id = a.id) then
            { x with status := attemptStatus, phase := result.finalPhase,
                     output_json := jsonEncode result.outputJson,
                     finished_at := some result.finishedAt }
          else x)
    let tasks2 := s.tasks.map (fun t =>
      if decide (t.id = taskId) then completeTaskUpdate result attemptNo task.max_attempts t
      else t)
    let ev : EventRow :=
      { task_id := some taskId, attempt_id := attempt.map (fun a => a.id),
        phase := result.finalPhase,
        level := if result.succeeded then EventLevel.info else EventLevel.error,
        message := if result.succeeded then "Task completed" else "Task failed",
        event_name := if result.succeeded then "task_completed" else "task_failed",
        created_at := now }
    { s with tasks := tasks2, attempts := attempts2, events := s.events ++ [ev] }

/-! ### createTask and title derivation -/

/-- Collapse each maximal whitespace run to one space
(the /\s+/g → " " replacement); the flag records whether the previous
character belonged to a run. -/
def collapseWsAux : Bool → List Char → List Char
  | _, [] => []
  | prevWs, c :: rest =>
    if c.isWhitespace then
      if prevWs then collapseWsAux true rest
      else ' ' :: collapseWsAux true rest
    else c :: collapseWsAux false rest

/-- Characters removed by the second replacement: backtick * _ # > " '. -/
def strippedChar (c : Char) : Bool :=
  [96, 42, 95, 35, 62, 34, 39].contains c.toNat

/-- deriveTitleFromPrompt (src/src/queue/repository.ts). -/
def deriveTitleFromPrompt (prompt : String) : String :=
  let normalized :=
    (String.mk ((collapseWsAux false prompt.toList).filter (fun c => !(strippedChar c)))).trim
  if normalized = "" then "Untitled task"
  else
    let sentenceEnd := fun (c : Char) => c == '.' || c == '!' || c == '?'
    let firstSentence :=
      match ((normalized.split sentenceEnd).map String.trim).find?
          (fun part => decide (part.length > 0)) with
      | some part => part
      | none => normalized
    let title :=
      if firstSentence.length > 72 then (firstSentence.take 72).trim ++ "..."
      else firstSentence
    if title = "" then "Untitled task" else title

def taskCreatedEvent (taskId now : String) : EventRow :=
  { task_id := some taskId, attempt_id := none, phase := "intake", level := EventLevel.info,
    message := "Task created", event_name := "task_created", created_at := now }

/-- QueueRepository.createTask; `id` stands for the fresh randomUUID().  An
INSERT whose id collides with the PRIMARY KEY throws and writes nothing. -/
def createTask (s : Store) (input : CreateTaskInput) (defaultMaxAttempts : Nat)
    (id : String) (now : String) : Store × Option TaskRow :=
  if s.tasks.any (fun t => decide (t.id = id)) then (s, none)
  else
    let ty := match input.type with
      | some v => if v.trim = "" then "generic" else v.trim
      | none => "generic"
    let mode := match input.mode with
      | some m => m
      | none => "auto"
    let title := match input.title with
      | some v =>
          if v.trim = "" then
            (if mode = "full" then deriveTitleFromPrompt input.prompt else "Untitled task")
          else v.trim
      | none => if mode = "full" then deriveTitleFromPrompt input.prompt else "Untitled task"
    let successCriteria := match input.successCriteria with
      | some v => if v.trim = "" then none else some v.trim
      | none => none
    let metadata := match input.metadata with
      | some m => m
      | none => Json.obj []
    let priority : Int := match input.priority with
      | some p => max 1 (min 5 p)
      | none => 3
    let maxAttempts : Nat := match input.maxAttempts with
      | some m => (max 1 m).toNat
      | none => defaultMaxAttempts
    let row : TaskRow :=
      { id := id, type := ty, title := title, prompt := input.prompt,
        success_criteria := successCriteria,
        task_request_json := jsonEncode (Json.obj
          [("metadata", metadata), ("source", Json.str "api"), ("mode", Json.str mode)]),
        status := TaskStatus.queued, priority := priority, attempt_count := 0,
        max_attempts := maxAttempts, lease_owner := none, lease_expires_at := none,
        last_error := none, created_at := now, updated_at := now }
    let s2 := { s with tasks := s.tasks ++ [row],
                       events := s.events ++ [taskCreatedEvent id now] }
    (s2, lookupTask s2 id)

/-! ### Worker job runner (src/unnamed/part_014) -/

/-- The strict-equality test `value === true` of the source. -/
def isTrueVal : Option Json → Bool
  | some (Json.bool true) => true
  | _ => false

/-- The strict-equality test `value === "s"` of the source. -/
def isStrVal (s : String) : Option Json → Bool
  | some (Json.str t) => decide (t = s)
  | _ => false

/-- evaluateVerifyPass: the verify output counts as a pass when any of the
recognised flags is strictly `true`, or one of the status strings matches. -/
def evaluateVerifyPass (verify : Json) : Bool :=
  if isTrueVal (verify.getField "pass") then true
  else if isTrueVal (verify.getField "passed") then true
  else if isTrueVal (verify.getField "success") then true
  else if isTrueVal (verify.getField "verified") then true
  else if isTrueVal (verify.getField "success_criteria_met") then true
  else if isStrVal "success" (verify.getField "verification_status") then true
  else if isStrVal "passed" (verify.getField "verification_status") then true
  else if isStrVal "success" (verify.getField "status") then true
  else if isStrVal "passed" (verify.getField "status") then true
  else false

/-- The CompleteAttemptInput posted by runLeasedJob when a pipeline run
reaches verify and report (both the lean branch and the full branch):
succeeded := evaluateVerifyPass verify, blocked := false. -/
def verifyCompletionInput (verify : Json) (outputJson : Json) (finishedAt : String) :
    CompleteAttemptInput :=
  let pass := evaluateVerifyPass verify
  { workerExitCode := some 0, outputJson := outputJson, finalPhase := "report",
    succeeded := pass, blocked := false,
    errorMessage := if pass then none else some "Verification failed",
    finishedAt := finishedAt }

/-- getByPath: walk a dot-path through nested objects.  `none` models the
JavaScript `undefined`; a stored JSON null stays `some Json.null` (defined).
Any non-object intermediate (null, primitive, array) yields undefined. -/
def getByPath (root : Json) (path : String) : Option Json :=
  let parts := ((path.splitOn ".").map String.trim).filter (fun p => decide (p.length > 0))
  parts.foldl
    (fun current part =>
      match current with
      | some (Json.obj fields) =>
          match fields.find? (fun kv => decide (kv.1 = part)) with
          | some kv => some kv.2
          | none => none
      | _ => none)
    (some root)

/-- asStringArray: keep only the string elements of an array, else []. -/
def asStringArray : Option Json → List String
  | some (Json.arr elems) =>
      elems.foldr (fun e acc => match e with | Json.str s => s :: acc | _ => acc) []
  | _ => []

/-- The interpret objective: `interpret.objective` when it is a string,
otherwise the empty string. -/
def interpretObjective (interpret : Json) : String :=
  match interpret.getField "objective" with
  | some (Json.str s) => s
  | _ => ""

/-- The canonical source object {task:{id,type,title,prompt}, interpret:{objective}}. -/
def canonicalSource (task : TaskRow) (interpret : Json) : Json :=
  Json.obj
    [("task", Json.obj
        [("id", Json.str task.id), ("type", Json.str task.type),
         ("title", Json.str task.title), ("prompt", Json.str task.prompt)]),
     ("interpret", Json.obj [("objective", Json.str (interpretObjective interpret))])]

/-- The key_fields list of the policy output.  `policy.idempotency` must be
a truthy object; a JSON array also passes the typeof check but indexing it
by "key_fields" yields undefined, hence the empty list either way. -/
def policyKeyFields (policy : Json) : List String :=
  match policy.getField "idempotency" with
  | some (Json.obj fields) =>
      asStringArray (match fields.find? (fun kv => decide (kv.1 = "key_fields")) with
        | some kv => some kv.2
        | none => none)
  | _ => []

/-- computeIdempotencyKey, parametrised by the sha256-hex function (the
claims only constrain which canonical string is hashed). -/
def computeIdempotencyKey (hash : String → String) (task : TaskRow)
    (interpret : Json) (policy : Json) : String :=
  let keyFields := policyKeyFields policy
  let objective := interpretObjective interpret
  let source := canonicalSource task interpret
  let canonicalFromFields := String.intercalate "|"
    (keyFields.map (fun k =>
      k ++ "=" ++ jsonEncode (match getByPath source k with | some v => v | none => Json.null)))
  let resolvedAny := keyFields.any (fun k => (getByPath source k).isSome)
  let canonical :=
    if decide (keyFields.length > 0) && resolvedAny then canonicalFromFields
    else task.id ++ "|" ++ task.type ++ "|" ++ task.title ++ "|" ++ task.prompt ++ "|" ++ objective
  hash canonical

/-- Outcome of the interpret gate of the full-mode pipeline: either an
early completion payload (succeeded, blocked) or continuation to the plan
phase, with at most a clarification warning. -/
structure InterpretGateResult where
  earlyComplete : Option (Bool × Bool)
  warned : Bool
deriving DecidableEq, Repr

/-- The interpret blocking branch of runLeasedJob (full mode):
block iff route = "blocked_for_clarification" AND critical_blocker === true;
a requested blocked route without a critical blocker only logs a warning. -/
def interpretGate (interpret : Json) : InterpretGateResult :=
  let criticalBlocker := isTrueVal (interpret.getField "critical_blocker")
  let requestedBlockedRoute :=
    isStrVal "blocked_for_clarification" (interpret.getField "route")
  if requestedBlockedRoute && criticalBlocker then
    { earlyComplete := some (false, true), warned := false }
  else if requestedBlockedRoute && !criticalBlocker then
    { earlyComplete := none, warned := true }
  else
    { earlyComplete := none, warned := false }

/-! ### Streaming sequence counter
(RunStreamer.emit in src/src/worker/execute-runner.ts and pushRunEvent in
src/unnamed/part_014; in the worker run both share one RunSequenceRef,
see the executeStreamer construction in part_014.) -/

/-- Mutable counters of one worker run: the shared RunSequenceRef value and
the streamer's own `sequence` field. -/
structure SeqState where
  refValue : Nat
  streamerSeq : Nat
deriving DecidableEq, Repr

/-- An emission producer: RunStreamer.emit (constructed with the shared
sequenceRef) or the system-event pusher pushRunEvent. -/
inductive EmitKind where
  | streamerEmit
  | pushEvent
deriving DecidableEq, Repr

/-- One emission: both producers pre-increment the shared counter and stamp
the envelope with the new value; the streamer additionally mirrors it into
its own field. -/
def emitStep : SeqState → EmitKind → SeqState × Nat
  | st, EmitKind.streamerEmit =>
      ({ refValue := st.refValue + 1, streamerSeq := st.refValue + 1 }, st.refValue + 1)
  | st, EmitKind.pushEvent =>
      ({ st with refValue := st.refValue + 1 }, st.refValue + 1)

/-- The envelope sequence numbers produced by a run of emissions. -/
def emitSequences : SeqState → List EmitKind → List Nat
  | _, [] => []
  | st, k :: ks =>
      let r := emitStep st k
      r.2 :: emitSequences r.1 ks

/-- Counter state at the start of a worker run (part_014: value 0). -/
def initialSeqState : SeqState := { refValue := 0, streamerSeq := 0 }

/-! ### ToolExecutor (src/src/worker/execute-runner.ts) -/

structure ToolResult where
  ok : Bool
  result : Json
  truncated : Bool
deriving Repr

structure ExecuteInput where
  action_id : String
  tool : String
  args : Json
  idempotency_key : String

/-- A registered tool run: it either returns a JSON value or throws with a
message (the `Except.error` case). -/
def ToolFn := Json → Except String Json

/-- ToolExecutor.execute.  The state is the `results` map keyed by
action_id; the third component logs the underlying tool invocations this
call performed, so the claims can talk about whether the tool ran. -/
def toolExecute (tools : String → Option ToolFn) (truncateAt : Nat)
    (results : List (String × ToolResult)) (input : ExecuteInput) :
    ToolResult × List (String × ToolResult) × List (String × Json) :=
  match results.find? (fun kv => decide (kv.1 = input.action_id)) with
  | some kv => (kv.2, results, [])
  | none =>
    match tools input.tool with
    | none =>
        let r : ToolResult :=
          { ok := false,
            result := Json.obj [("error", Json.str ("Unknown tool: " ++ input.tool))],
            truncated := false }
        (r, results ++ [(input.action_id, r)], [])
    | some fn =>
        match fn input.args with
        | Except.ok raw =>
            let serialized := jsonEncode raw
            let r : ToolResult :=
              if serialized.length > truncateAt then
                { ok := true,
                  result := Json.obj
                    [("truncated", Json.bool true),
                     ("preview", Json.str (serialized.take truncateAt)),
                     ("full_ref", Json.str ("action:" ++ input.action_id ++ ":full_result"))],
                  truncated := true }
              else { ok := true, result := raw, truncated := false }
            (r, results ++ [(input.action_id, r)], [(input.tool, input.args)])
        | Except.error msg =>
            let r : ToolResult :=
              { ok := false, result := Json.obj [("error", Json.str msg)], truncated := false }
            (r, results ++ [(input.action_id, r)], [(input.tool, input.args)])

/-! ### Transaction structure of the repository methods
A method body is a list of units executed in order; each unit is either a
single auto-committed statement or a db.transaction(...) block.  A crash
can fall between units but never splits a unit. -/

inductive DbWrite where
  | insertTask
  | updateTask
  | insertAttempt
  | updateAttempt
  | insertEvent
deriving DecidableEq, Repr

inductive TxUnit where
  | single (w : DbWrite)
  | transact (ws : List DbWrite)
deriving DecidableEq, Repr

def TxUnit.writes : TxUnit → List DbWrite
  | TxUnit.single w => [w]
  | TxUnit.transact ws => ws

/-- All writes of a method body. -/
def progWrites (p : List TxUnit) : List DbWrite :=
  (p.map TxUnit.writes).flatten

/-- Writes durably applied when the process stops after `k` units. -/
def appliedAfter (p : List TxUnit) (k : Nat) : List DbWrite :=
  ((p.take k).map TxUnit.writes).flatten

/-- All-or-nothing at a crash point. -/
def atomicAt (p : List TxUnit) (k : Nat) : Prop :=
  appliedAfter p k = [] ∨ appliedAfter p k = progWrites p

/-- createTask: a bare INSERT INTO tasks followed by a bare appendEvent,
with no surrounding transaction. -/
def createTaskProg : List TxUnit :=
  [TxUnit.single DbWrite.insertTask, TxUnit.single DbWrite.insertEvent]

/-- heartbeatLease: two bare UPDATE statements, no transaction. -/
def heartbeatLeaseProg : List TxUnit :=
  [TxUnit.single DbWrite.updateTask, TxUnit.single DbWrite.updateAttempt]

/-- recoverExpiredLeases: one transaction holding an UPDATE and an event
INSERT per expired task. -/
def recoverExpiredLeasesProg (expiredCount : Nat) : List TxUnit :=
  [TxUnit.transact
    ((List.replicate expiredCount [DbWrite.updateTask, DbWrite.insertEvent]).flatten)]

/-- claimNextTask: one transaction around the nested recovery writes plus,
when a candidate is claimed, the conditional UPDATE and the event INSERT. -/
def claimNextTaskProg (expiredCount : Nat) (claimed : Bool) : List TxUnit :=
  [TxUnit.transact
    (((List.replicate expiredCount [DbWrite.updateTask, DbWrite.insertEvent]).flatten) ++
      (if claimed then [DbWrite.updateTask, DbWrite.insertEvent] else []))]

/-- startAttempt: one transaction; on a found lease it updates the task,
inserts the attempt and appends the event. -/
def startAttemptProg (found : Bool) : List TxUnit :=
  [TxUnit.transact
    (if found then [DbWrite.updateTask, DbWrite.insertAttempt, DbWrite.insertEvent] else [])]

/-- completeAttempt: one transaction; on a found lease it updates the
attempt row when present, updates the task and appends the event. -/
def completeAttemptProg (found hasAttempt : Bool) : List TxUnit :=
  [TxUnit.transact
    (if found then
      (if hasAttempt then [DbWrite.updateAttempt] else []) ++
        [DbWrite.updateTask, DbWrite.insertEvent]
     else [])]

/-! ### Generic lookup lemmas -/

/-- With pairwise-distinct keys, a predicate that pins the key down finds
exactly the known member. -/
theorem find_eq_of_key_nodup {α : Type} (key : α → String) (p : α → Bool) :
    ∀ (l : List α) (t : α), (l.map key).Nodup → t ∈ l → p t = true →
      (∀ u, p u = true → key u = key t) → l.find? p = some t := by
  intro l
  induction l with
  | nil => intro t _ hm _ _; cases hm
  | cons a l ih =>
    intro t hn hm hp hk
    rw [List.map_cons, List.nodup_cons] at hn
    rcases List.mem_cons.mp hm with rfl | hmem
    · exact List.find?_cons_of_pos _ hp
    · have ha : p a = false := by
        by_contra hcon
        have ha : p a = true := by
          cases hpa : p a with
          | true => rfl
          | false => exact absurd hpa hcon
        have hka : key a = key t := hk a ha
        exact hn.1 (hka ▸ List.mem_map_of_mem key hmem)
      rw [List.find?_cons_of_neg _ (by simp [ha])]
      exact ih t hn.2 hmem hp hk

/-- Mapping a key-preserving update commutes with lookup by key. -/
theorem find_map_of_key_pres {α : Type} (key : α → String) (g : α → α)
    (hg : ∀ a, key (g a) = key a) (x : String) :
    ∀ l : List α, (l.map g).find? (fun u => decide (key u = x)) =
      (l.find? (fun u => decide (key u = x))).map g := by
  intro l
  induction l with
  | nil => rfl
  | cons a l ih =>
    by_cases h : key a = x
    · rw [List.map_cons, List.find?_cons_of_pos _ (by simp [hg, h]),
        List.find?_cons_of_pos _ (by simp [h])]
      rfl
    · rw [List.map_cons, List.find?_cons_of_neg _ (by simp [hg, h]),
        List.find?_cons_of_neg _ (by simp [h]), ih]

/-- The completeAttempt task update keeps the row id. -/
theorem completeTaskUpdate_id (r : CompleteAttemptInput) (n m : Nat) (t : TaskRow) :
    (completeTaskUpdate r n m t).id = t.id := rfl

/-- Lookup after completeAttempt on the matching leased/running row. -/
theorem completeAttempt_found_lookup (s : Store) (workerId : String)
    (r : CompleteAttemptInput) (now : String) (t : TaskRow)
    (hn : (s.tasks.map TaskRow.id).Nodup) (hm : t ∈ s.tasks)
    (howner : t.lease_owner = some workerId)
    (hstatus : t.status = TaskStatus.leased ∨ t.status = TaskStatus.running) :
    lookupTask (completeAttempt s t.id workerId r now) t.id =
      some (completeTaskUpdate r (t.attempt_count + 1) t.max_attempts t) := by
  have hguard : completeGuard t.id workerId t = true := by
    simp [completeGuard, howner, hstatus]
  have hfind : s.tasks.find? (completeGuard t.id workerId) = some t := by
    refine find_eq_of_key_nodup TaskRow.id _ s.tasks t hn hm hguard ?_
    intro u hu
    simp only [completeGuard, decide_eq_true_eq] at hu
    exact hu.1
  unfold completeAttempt
  rw [hfind]
  unfold lookupTask
  simp only []
  rw [find_map_of_key_pres TaskRow.id
      (fun u => if decide (u.id = t.id) then
        completeTaskUpdate r (t.attempt_count + 1) t.max_attempts u else u)
      (by intro a; by_cases h : a.id = t.id <;> simp [h, completeTaskUpdate_id]) t.id]
  have hfind2 : s.tasks.find? (fun u => decide (u.id = t.id)) = some t := by
    refine find_eq_of_key_nodup TaskRow.id _ s.tasks t hn hm (by simp) ?_
    intro u hu
    simpa using hu
  rw [hfind2]
  simp

/-- C1: for the task whose lease matches the caller and whose status is
leased or running, completeAttempt sets status to blocked / done /
queued-or-failed according to the result, advances attempt_count to
attempt_no = attempt_count + 1, and clears both lease fields. -/
theorem completeAttempt_task_transition (s : Store) (workerId : String)
    (r : CompleteAttemptInput) (now : String) (t : TaskRow)
    (hn : (s.tasks.map TaskRow.id).Nodup) (hm : t ∈ s.tasks)
    (howner : t.lease_owner = some workerId)
    (hstatus : t.status = TaskStatus.leased ∨ t.status = TaskStatus.running) :
    lookupTask (completeAttempt s t.id workerId r now) t.id =
      some { t with
        status :=
          if r.blocked then TaskStatus.blocked
          else if r.succeeded then TaskStatus.done
          else if t.attempt_count + 1 < t.max_attempts then TaskStatus.queued
          else TaskStatus.failed,
        attempt_count := t.attempt_count + 1,
        lease_owner := none,
        lease_expires_at := none,
        last_error := r.errorMessage,
        updated_at := r.finishedAt } := by
  rw [completeAttempt_found_lookup s workerId r now t hn hm howner hstatus]
  unfold completeTaskUpdate
  by_cases hb : r.blocked
  · simp [hb]
  · by_cases hsu : r.succeeded
    · simp [hb, hsu]
    · by_cases hlt : t.attempt_count + 1 < t.max_attempts
      · simp [hb, hsu, hlt, Nat.not_le.mpr hlt]
      · simp [hb, hsu, hlt, Nat.le_of_not_lt hlt]

/-- Concrete leased task used by several witnesses. -/
def wLeasedTask : TaskRow :=
  { id := "t1", type := "generic", title := "T", prompt := "P",
    success_criteria := none, task_request_json := "",
    status := TaskStatus.leased, priority := 3, attempt_count := 0,
    max_attempts := 3, lease_owner := some "w1",
    lease_expires_at := some "2099-01-01T00:00:00.000Z", last_error := none,
    created_at := "2024-01-01T00:00:00.000Z", updated_at := "2024-01-01T00:00:00.000Z" }

def wLeasedStore : Store :=
  { tasks := [wLeasedTask], attempts := [], events := [], nextAttemptId := 1 }

def wSucceededResult : CompleteAttemptInput :=
  { workerExitCode := some 0, outputJson := Json.obj [], finalPhase := "report",
    succeeded := true, blocked := false, errorMessage := none,
    finishedAt := "2024-01-01T01:00:00.000Z" }

/-- Witness for C1 at a concrete store: a successful completion of a
leased task lands on status done with cleared lease fields. -/
theorem completeAttempt_task_transition_witness :
    lookupTask (completeAttempt wLeasedStore wLeasedTask.id "w1" wSucceededResult
        "2024-01-01T01:00:00.000Z") wLeasedTask.id =
      some { wLeasedTask with
        status :=
          if wSucceededResult.blocked then TaskStatus.blocked
          else if wSucceededResult.succeeded then TaskStatus.done
          else if wLeasedTask.attempt_count + 1 < wLeasedTask.max_attempts then TaskStatus.queued
          else TaskStatus.failed,
        attempt_count := wLeasedTask.attempt_count + 1,
        lease_owner := none,
        lease_expires_at := none,
        last_error := wSucceededResult.errorMessage,
        updated_at := wSucceededResult.finishedAt } :=
  completeAttempt_task_transition wLeasedStore "w1" wSucceededResult
    "2024-01-01T01:00:00.000Z" wLeasedTask (by decide) (by decide) (by decide)
    (Or.inl (by decide))

/-- The recovery update keeps the row id. -/
theorem recoverRow_id (now : String) (t : TaskRow) : (recoverRow now t).id = t.id := rfl

/-- Lookup after the recovery sweep resolves to the guarded update of the
row with that id. -/
theorem recoverExpiredLeases_lookup (s : Store) (now : String) (t : TaskRow)
    (hn : (s.tasks.map TaskRow.id).Nodup) (hm : t ∈ s.tasks) :
    lookupTask (recoverExpiredLeases s now).1 t.id =
      some (if expiredGuard now t then recoverRow now t else t) := by
  unfold recoverExpiredLeases lookupTask
  simp only []
  rw [find_map_of_key_pres TaskRow.id
      (fun u => if expiredGuard now u then recoverRow now u else u)
      (by intro a; by_cases h : expiredGuard now a <;> simp [h, recoverRow_id]) t.id]
  have hfind : s.tasks.find? (fun u => decide (u.id = t.id)) = some t := by
    refine find_eq_of_key_nodup TaskRow.id _ s.tasks t hn hm (by simp) ?_
    intro u hu
    simpa using hu
  rw [hfind]
  rfl

/-- C2: one recovery sweep moves every leased/running task whose lease
expired strictly before now to failed (new count ≥ max_attempts) or queued,
increments attempt_count, clears the lease fields, records the lease-expiry
error and appends a lease_expired event; every other task is unchanged. -/
theorem recoverExpiredLeases_spec (s : Store) (now : String)
    (hn : (s.tasks.map TaskRow.id).Nodup) :
    (∀ t ∈ s.tasks, (t.status = TaskStatus.leased ∨ t.status = TaskStatus.running) →
      ∀ e, t.lease_expires_at = some e → strLt e now = true →
        lookupTask (recoverExpiredLeases s now).1 t.id =
          some { t with
            status := if t.attempt_count + 1 ≥ t.max_attempts then TaskStatus.failed
                      else TaskStatus.queued,
            attempt_count := t.attempt_count + 1,
            lease_owner := none,
            lease_expires_at := none,
            last_error := some "Lease expired before completion",
            updated_at := now } ∧
        leaseExpiredEvent t.id now ∈ (recoverExpiredLeases s now).1.events) ∧
    (∀ t ∈ s.tasks, expiredGuard now t = false →
      lookupTask (recoverExpiredLeases s now).1 t.id = some t) := by
  constructor
  · intro t hm hstatus e he hlt
    have hguard : expiredGuard now t = true := by
      have h1 : t.status.isLeasedOrRunning = true := by
        rcases hstatus with h | h <;> simp [h, TaskStatus.isLeasedOrRunning]
      simp [expiredGuard, h1, leaseExpiredBefore, he, hlt]
    constructor
    · rw [recoverExpiredLeases_lookup s now t hn hm, hguard]
      simp [recoverRow]
    · show leaseExpiredEvent t.id now ∈
        s.events ++ (s.tasks.filter (expiredGuard now)).map (fun u => leaseExpiredEvent u.id now)
      refine List.mem_append_right _ ?_
      exact List.mem_map_of_mem _ (List.mem_filter.mpr ⟨hm, hguard⟩)
  · intro t hm hguard
    rw [recoverExpiredLeases_lookup s now t hn hm, hguard]
    simp

/-- Concrete expired-lease store for the C2 witness. -/
def wExpiredTask : TaskRow :=
  { wLeasedTask with status := TaskStatus.running,
                     lease_expires_at := some "2024-01-01T00:30:00.000Z" }

def wExpiredStore : Store :=
  { tasks := [wExpiredTask], attempts := [], events := [], nextAttemptId := 1 }

/-- Witness for C2: the expired running task is requeued with the lease
cleared and a lease_expired event appended. -/
theorem recoverExpiredLeases_spec_witness :
    lookupTask (recoverExpiredLeases wExpiredStore "2024-01-02T00:00:00.000Z").1
        wExpiredTask.id =
      some { wExpiredTask with
        status := if wExpiredTask.attempt_count + 1 ≥ wExpiredTask.max_attempts
                  then TaskStatus.failed else TaskStatus.queued,
        attempt_count := wExpiredTask.attempt_count + 1,
        lease_owner := none,
        lease_expires_at := none,
        last_error := some "Lease expired before completion",
        updated_at := "2024-01-02T00:00:00.000Z" } ∧
    leaseExpiredEvent wExpiredTask.id "2024-01-02T00:00:00.000Z" ∈
      (recoverExpiredLeases wExpiredStore "2024-01-02T00:00:00.000Z").1.events :=
  (recoverExpiredLeases_spec wExpiredStore "2024-01-02T00:00:00.000Z" (by decide)).1
    wExpiredTask (by decide) (Or.inr (by decide)) "2024-01-01T00:30:00.000Z"
    (by decide) (by decide)

/-! ### C4: terminal status vs the verify output -/

/-- A verify output carrying only the alias flag `passed`. -/
def c4AliasVerify : Json := Json.obj [("passed", Json.bool true)]

/-- Counterexample to C4 as stated: this verify output has no `pass` field
at all, yet completing the leased task with the pipeline's completion input
computed from it yields terminal status done (evaluateVerifyPass accepts
the alias flags passed/success/verified/..., not only `pass`). -/
theorem verify_pass_absent_done_counterexample :
    Json.getField c4AliasVerify "pass" = none ∧
    evaluateVerifyPass c4AliasVerify = true ∧
    (lookupTask (completeAttempt wLeasedStore wLeasedTask.id "w1"
        (verifyCompletionInput c4AliasVerify (Json.obj []) "2024-01-01T01:00:00.000Z")
        "2024-01-01T01:00:00.000Z") wLeasedTask.id).map TaskRow.status =
      some TaskStatus.done :=
  ⟨rfl, rfl, rfl⟩

/-- C4 amended: for a completed run that reaches verify, the terminal task
status is done iff evaluateVerifyPass accepts the verify output (pass,
passed, success, verified or success_criteria_met strictly true, or
verification_status / status equal to "success" or "passed"). -/
theorem verify_done_iff_evaluateVerifyPass (s : Store) (workerId : String)
    (verify outputJson : Json) (finishedAt now : String) (t : TaskRow)
    (hn : (s.tasks.map TaskRow.id).Nodup) (hm : t ∈ s.tasks)
    (howner : t.lease_owner = some workerId)
    (hstatus : t.status = TaskStatus.leased ∨ t.status = TaskStatus.running) :
    ((lookupTask (completeAttempt s t.id workerId
        (verifyCompletionInput verify outputJson finishedAt) now) t.id).map TaskRow.status
      = some TaskStatus.done) ↔ evaluateVerifyPass verify = true := by
  rw [completeAttempt_found_lookup s workerId _ now t hn hm howner hstatus]
  unfold completeTaskUpdate verifyCompletionInput
  cases hp : evaluateVerifyPass verify
  · by_cases hge : t.attempt_count + 1 ≥ t.max_attempts <;> simp [hp, hge]
  · simp [hp]

/-- A verify output with the literal `pass: true`. -/
def c4PassVerify : Json := Json.obj [("pass", Json.bool true)]

/-- Witness for the amended C4 at a concrete leased task. -/
theorem verify_done_iff_evaluateVerifyPass_witness :
    ((lookupTask (completeAttempt wLeasedStore wLeasedTask.id "w1"
        (verifyCompletionInput c4PassVerify (Json.obj []) "2024-01-01T01:00:00.000Z")
        "2024-01-01T01:00:00.000Z") wLeasedTask.id).map TaskRow.status
      = some TaskStatus.done) ↔ evaluateVerifyPass c4PassVerify = true :=
  verify_done_iff_evaluateVerifyPass wLeasedStore "w1" c4PassVerify (Json.obj [])
    "2024-01-01T01:00:00.000Z" "2024-01-01T01:00:00.000Z" wLeasedTask
    (by decide) (by decide) (by decide) (Or.inl (by decide))

/-! ### C5: the interpret gate -/

theorem isTrueVal_iff (v : Option Json) :
    isTrueVal v = true ↔ v = some (Json.bool true) := by
  cases v with
  | none => simp [isTrueVal]
  | some j =>
    cases j with
    | bool b => cases b <;> simp [isTrueVal]
    | null => simp [isTrueVal]
    | num n => simp [isTrueVal]
    | str s => simp [isTrueVal]
    | arr xs => simp [isTrueVal]
    | obj fs => simp [isTrueVal]

theorem isStrVal_iff (s : String) (v : Option Json) :
    isStrVal s v = true ↔ v = some (Json.str s) := by
  cases v with
  | none => simp [isStrVal]
  | some j =>
    cases j with
    | str t => simp [isStrVal]
    | null => simp [isStrVal]
    | bool b => simp [isStrVal]
    | num n => simp [isStrVal]
    | arr xs => simp [isStrVal]
    | obj fs => simp [isStrVal]

/-- C5: the full-mode pipeline terminates early exactly when the interpret
output has route "blocked_for_clarification" and critical_blocker strictly
true; the early completion carries succeeded = false, blocked = true; and a
warning without blocking happens only for the requested route with a
non-critical blocker. -/
theorem interpretGate_spec (i : Json) :
    ((interpretGate i).earlyComplete ≠ none ↔
      (i.getField "route" = some (Json.str "blocked_for_clarification") ∧
       i.getField "critical_blocker" = some (Json.bool true))) ∧
    (∀ sb, (interpretGate i).earlyComplete = some sb → sb = (false, true)) ∧
    ((interpretGate i).warned = true →
      (interpretGate i).earlyComplete = none ∧
      i.getField "route" = some (Json.str "blocked_for_clarification") ∧
      ¬ i.getField "critical_blocker" = some (Json.bool true)) := by
  rw [← isStrVal_iff "blocked_for_clarification" (i.getField "route"),
      ← isTrueVal_iff (i.getField "critical_blocker")]
  unfold interpretGate
  cases hrb : isStrVal "blocked_for_clarification" (i.getField "route") <;>
    cases hcb : isTrueVal (i.getField "critical_blocker") <;>
      simp [hrb, hcb]

/-- Interpret output that must block. -/
def c5Interpret : Json :=
  Json.obj [("route", Json.str "blocked_for_clarification"),
            ("critical_blocker", Json.bool true)]

/-- Witness for C5: the exact blocking combination terminates early. -/
theorem interpretGate_spec_witness :
    (interpretGate c5Interpret).earlyComplete ≠ none :=
  (interpretGate_spec c5Interpret).1.mpr ⟨rfl, rfl⟩

/-! ### C6: the idempotency key -/

/-- C6: when the policy names a non-empty key_fields list and at least one
dot-path resolves in the canonical source, the key hashes the "|"-joined
path=encoded-value-or-null entries in list order; otherwise it hashes
id|type|title|prompt|objective. -/
theorem computeIdempotencyKey_spec (hash : String → String) (task : TaskRow)
    (interpret policy : Json) :
    computeIdempotencyKey hash task interpret policy =
      if policyKeyFields policy ≠ [] ∧
         (policyKeyFields policy).any
           (fun k => (getByPath (canonicalSource task interpret) k).isSome) = true
      then
        hash (String.intercalate "|" ((policyKeyFields policy).map (fun k =>
          k ++ "=" ++ jsonEncode
            (match getByPath (canonicalSource task interpret) k with
             | some v => v
             | none => Json.null))))
      else
        hash (task.id ++ "|" ++ task.type ++ "|" ++ task.title ++ "|" ++
          task.prompt ++ "|" ++ interpretObjective interpret) := by
  unfold computeIdempotencyKey
  by_cases h1 : policyKeyFields policy = []
  · simp [h1]
  · have hlen : (policyKeyFields policy).length > 0 := List.length_pos.mpr h1
    cases h2 : (policyKeyFields policy).any
        (fun k => (getByPath (canonicalSource task interpret) k).isSome) with
    | false =>
        rw [if_neg (by simp [h2])]
        simp [h2]
    | true =>
        rw [if_pos ⟨h1, rfl⟩]
        simp [h2, hlen]

/-! ### C3: claim order -/

theorem listLtB_cons_iff (x y : Char) (as bs : List Char) :
    listLtB (x :: as) (y :: bs) = true ↔
      (x.toNat < y.toNat ∨ (x.toNat = y.toNat ∧ listLtB as bs = true)) := by
  show (if x.toNat < y.toNat then true
        else if y.toNat < x.toNat then false else listLtB as bs) = true ↔ _
  by_cases h1 : x.toNat < y.toNat
  · simp [h1]
  · by_cases h2 : y.toNat < x.toNat
    · simp [h1, h2]; omega
    · have hxy : x.toNat = y.toNat := by omega
      simp [h1, h2, hxy]

theorem listLtB_irrefl : ∀ l : List Char, listLtB l l = false := by
  intro l
  induction l with
  | nil => rfl
  | cons c cs ih => simp [listLtB, Nat.lt_irrefl, ih]

theorem listLtB_trans : ∀ a b c : List Char,
    listLtB a b = true → listLtB b c = true → listLtB a c = true := by
  intro a
  induction a with
  | nil =>
    intro b c hab hbc
    cases b with
    | nil => exact absurd hab (by simp [listLtB])
    | cons y bs =>
      cases c with
      | nil => exact absurd hbc (by simp [listLtB_cons_iff, listLtB])
      | cons z cs => rfl
  | cons x as ih =>
    intro b c hab hbc
    cases b with
    | nil => exact absurd hab (by simp [listLtB])
    | cons y bs =>
      cases c with
      | nil => exact absurd hbc (by simp [listLtB])
      | cons z cs =>
        rw [listLtB_cons_iff] at hab hbc ⊢
        rcases hab with h1 | ⟨h1, h1t⟩ <;> rcases hbc with h2 | ⟨h2, h2t⟩
        · exact Or.inl (by omega)
        · exact Or.inl (by omega)
        · exact Or.inl (by omega)
        · exact Or.inr ⟨by omega, ih bs cs h1t h2t⟩

/-- In the total byte order: a < r together with not (b < r) gives a < b. -/
theorem listLtB_lt_of_lt_of_nlt : ∀ a r b : List Char,
    listLtB a r = true → listLtB b r = false → listLtB a b = true := by
  intro a
  induction a with
  | nil =>
    intro r b har hbr
    cases r with
    | nil => exact absurd har (by simp [listLtB])
    | cons z rs =>
      cases b with
      | nil => exact absurd hbr (by simp [listLtB])
      | cons y bs => rfl
  | cons x as ih =>
    intro r b har hbr
    cases r with
    | nil => exact absurd har (by simp [listLtB])
    | cons z rs =>
      cases b with
      | nil => exact absurd hbr (by simp [listLtB])
      | cons y bs =>
        rw [listLtB_cons_iff] at har ⊢
        have hbr2 : ¬ (y.toNat < z.toNat ∨ (y.toNat = z.toNat ∧ listLtB bs rs = true)) := by
          rw [← listLtB_cons_iff y z bs rs]
          simp [hbr]
        push_neg at hbr2
        rcases har with h1 | ⟨h1, h1t⟩
        · exact Or.inl (by omega)
        · by_cases hzy : z.toNat = y.toNat
          · have hbs : listLtB bs rs = false := by
              have hne := hbr2.2 (by omega)
              cases hb : listLtB bs rs with
              | false => rfl
              | true => exact absurd hb hne
            exact Or.inr ⟨by omega, ih rs bs h1t hbs⟩
          · exact Or.inl (by omega)

theorem strLt_trans (a b c : String) :
    strLt a b = true → strLt b c = true → strLt a c = true :=
  listLtB_trans a.toList b.toList c.toList

theorem strLt_irrefl (a : String) : strLt a a = false :=
  listLtB_irrefl a.toList

theorem strLt_lt_of_lt_of_nlt (a r b : String) :
    strLt a r = true → strLt b r = false → strLt a b = true :=
  listLtB_lt_of_lt_of_nlt a.toList r.toList b.toList

theorem claimLt_iff (a b : TaskRow) :
    claimLt a b = true ↔
      (a.priority < b.priority ∨
        (a.priority = b.priority ∧ strLt a.created_at b.created_at = true)) := by
  simp [claimLt]

theorem claimLt_irrefl (a : TaskRow) : claimLt a a = false := by
  simp [claimLt, strLt_irrefl]

theorem claimLt_trans (a b c : TaskRow) :
    claimLt a b = true → claimLt b c = true → claimLt a c = true := by
  intro hab hbc
  rw [claimLt_iff] at hab hbc ⊢
  rcases hab with h1 | ⟨h1, h1s⟩ <;> rcases hbc with h2 | ⟨h2, h2s⟩
  · exact Or.inl (by omega)
  · exact Or.inl (by omega)
  · exact Or.inl (by omega)
  · exact Or.inr ⟨by omega, strLt_trans _ _ _ h1s h2s⟩

theorem claimLt_lt_of_lt_of_nlt (t r b : TaskRow) :
    claimLt t r = true → claimLt b r = false → claimLt t b = true := by
  intro htr hbr
  rw [claimLt_iff] at htr ⊢
  have hbr2 : ¬ (b.priority < r.priority ∨
      (b.priority = r.priority ∧ strLt b.created_at r.created_at = true)) := by
    rw [← claimLt_iff]
    simp [hbr]
  push_neg at hbr2
  rcases htr with h1 | ⟨h1, h1s⟩
  · exact Or.inl (by omega)
  · by_cases hrb : r.priority = b.priority
    · have hbs : strLt b.created_at r.created_at = false := by
        have hne := hbr2.2 (by omega)
        cases hb : strLt b.created_at r.created_at with
        | false => rfl
        | true => exact absurd hb hne
      exact Or.inr ⟨by omega, strLt_lt_of_lt_of_nlt _ _ _ h1s hbs⟩
    · exact Or.inl (by omega)

theorem claimLt_false_cases (u c : TaskRow) (h : claimLt u c = false) :
    c.priority < u.priority ∨
      (c.priority = u.priority ∧ strLt u.created_at c.created_at = false) := by
  have h2 : ¬ (u.priority < c.priority ∨
      (u.priority = c.priority ∧ strLt u.created_at c.created_at = true)) := by
    rw [← claimLt_iff]
    simp [h]
  push_neg at h2
  rcases lt_trichotomy c.priority u.priority with hlt | heq | hgt
  · exact Or.inl hlt
  · refine Or.inr ⟨heq, ?_⟩
    have hne := h2.2 heq.symm
    cases hs : strLt u.created_at c.created_at with
    | false => rfl
    | true => exact absurd hs hne
  · exact absurd hgt (by omega)

/-- The fold of selectCandidate returns a member that no later or earlier
element strictly beats under claimLt. -/
theorem claimFold_spec : ∀ (l : List TaskRow) (acc : Option TaskRow) (r : TaskRow),
    l.foldl claimFoldStep acc = some r →
    ((r ∈ l ∨ acc = some r) ∧
     (∀ u ∈ l, claimLt u r = false) ∧
     (∀ b, acc = some b → claimLt b r = false)) := by
  intro l
  induction l with
  | nil =>
    intro acc r h
    simp only [List.foldl_nil] at h
    refine ⟨Or.inr h, ?_, ?_⟩
    · intro u hu
      cases hu
    · intro b hb
      rw [h] at hb
      have hbr : b = r := (Option.some.inj hb).symm
      rw [hbr]
      exact claimLt_irrefl r
  | cons t l ih =>
    intro acc r h
    rw [List.foldl_cons] at h
    obtain ⟨hmem, hmin, hacc⟩ := ih (claimFoldStep acc t) r h
    have hstep : claimLt t r = false := by
      cases acc with
      | none => exact hacc t rfl
      | some b =>
        cases hc : claimLt t b with
        | true => exact hacc t (by simp [claimFoldStep, hc])
        | false =>
          have hbr : claimLt b r = false := hacc b (by simp [claimFoldStep, hc])
          cases htr : claimLt t r with
          | false => rfl
          | true => exact absurd (claimLt_lt_of_lt_of_nlt t r b htr hbr) (by simp [hc])
    refine ⟨?_, ?_, ?_⟩
    · rcases hmem with hr | hr
      · exact Or.inl (List.mem_cons_of_mem _ hr)
      · cases acc with
        | none =>
          have ht : t = r := by simpa [claimFoldStep] using hr
          exact Or.inl (ht ▸ List.mem_cons_self t l)
        | some b =>
          cases hc : claimLt t b with
          | true =>
            have ht : t = r := by simpa [claimFoldStep, hc] using hr
            exact Or.inl (ht ▸ List.mem_cons_self t l)
          | false =>
            have hb : b = r := by simpa [claimFoldStep, hc] using hr
            exact Or.inr (by rw [hb])
    · intro u hu
      rcases List.mem_cons.mp hu with rfl | hu2
      · exact hstep
      · exact hmin u hu2
    · intro b hb
      cases acc with
      | none => exact absurd hb (by simp)
      | some b0 =>
        have hb0 : b0 = b := Option.some.inj hb
        subst hb0
        cases hc : claimLt t b0 with
        | false => exact hacc b0 (by simp [claimFoldStep, hc])
        | true =>
          cases hbr : claimLt b0 r with
          | false => rfl
          | true => exact absurd (claimLt_trans t b0 r hc hbr) (by simp [hstep])

/-- selectCandidate returns a queued member no queued row strictly beats
under (priority, created_at). -/
theorem selectCandidate_spec (tasks : List TaskRow) (c : TaskRow)
    (h : selectCandidate tasks = some c) :
    c ∈ tasks ∧ c.status = TaskStatus.queued ∧
      ∀ u ∈ tasks, u.status = TaskStatus.queued → claimLt u c = false := by
  unfold selectCandidate at h
  obtain ⟨hmem, hmin, _⟩ := claimFold_spec _ none c h
  rcases hmem with hm | hm
  · have hf := List.mem_filter.mp hm
    refine ⟨hf.1, by simpa using hf.2, ?_⟩
    intro u hu hq
    exact hmin u (List.mem_filter.mpr ⟨hu, by simp [hq]⟩)
  · exact absurd hm (by simp)

/-- The recovery sweep keeps the id column of the tasks table. -/
theorem recover_ids (s : Store) (now : String) :
    ((recoverExpiredLeases s now).1.tasks).map TaskRow.id = s.tasks.map TaskRow.id := by
  show (s.tasks.map (fun t => if expiredGuard now t then recoverRow now t else t)).map
      TaskRow.id = s.tasks.map TaskRow.id
  rw [List.map_map]
  exact List.map_congr_left (fun a _ => by
    by_cases h : expiredGuard now a <;> simp [h, recoverRow_id])

/-- The claim lease update keeps the row id. -/
theorem claimLeaseUpdate_id (workerId now lea : String) (t : TaskRow) :
    (claimLeaseUpdate workerId now lea t).id = t.id := rfl

/-- C3 amended: the claimed task is leased to the caller and is minimal
among post-recovery queued tasks under (priority asc, created_at asc); rows
tied on both keys are ordered by table position, not by id. -/
theorem claimNextTask_claims_minimal (s : Store) (workerId now leaseExpiresAt : String)
    (claimed : TaskRow)
    (hn : (s.tasks.map TaskRow.id).Nodup)
    (h : (claimNextTask s workerId now leaseExpiresAt).2 = some claimed) :
    claimed.status = TaskStatus.leased ∧
    claimed.lease_owner = some workerId ∧
    ∀ u ∈ (recoverExpiredLeases s now).1.tasks, u.status = TaskStatus.queued →
      claimed.priority < u.priority ∨
        (claimed.priority = u.priority ∧ strLt u.created_at claimed.created_at = false) := by
  have hn1 : (((recoverExpiredLeases s now).1.tasks).map TaskRow.id).Nodup := by
    rw [recover_ids]
    exact hn
  simp only [claimNextTask] at h
  rcases hsel : selectCandidate (recoverExpiredLeases s now).1.tasks with _ | cand
  · rw [hsel] at h
    simp at h
  · rw [hsel] at h
    dsimp only at h
    obtain ⟨hcm, hcq, hcmin⟩ := selectCandidate_spec _ cand hsel
    by_cases hch : ((recoverExpiredLeases s now).1.tasks.filter (claimHit cand.id)).length = 1
    · rw [if_neg (by simp [hch])] at h
      have hlook : lookupTask
          { (recoverExpiredLeases s now).1 with
            tasks := ((recoverExpiredLeases s now).1.tasks).map (fun t =>
              if claimHit cand.id t then claimLeaseUpdate workerId now leaseExpiresAt t else t),
            events := ((recoverExpiredLeases s now).1.events ++ [taskLeasedEvent cand.id now]) }
          cand.id = some claimed := h
      unfold lookupTask at hlook
      rw [find_map_of_key_pres TaskRow.id
          (fun t => if claimHit cand.id t then claimLeaseUpdate workerId now leaseExpiresAt t else t)
          (by intro a; by_cases hc : claimHit cand.id a <;> simp [hc, claimLeaseUpdate_id])
          cand.id] at hlook
      have hfind : ((recoverExpiredLeases s now).1.tasks).find? (fun u => decide (u.id = cand.id))
          = some cand := by
        refine find_eq_of_key_nodup TaskRow.id _ _ cand hn1 hcm (by simp) ?_
        intro u hu
        simpa using hu
      rw [hfind] at hlook
      have hhit : claimHit cand.id cand = true := by
        simp [claimHit, hcq]
      simp [hhit] at hlook
      have hclaimed : claimed = claimLeaseUpdate workerId now leaseExpiresAt cand :=
        hlook.symm
      subst hclaimed
      refine ⟨rfl, rfl, ?_⟩
      intro u hu hq
      have hfalse := hcmin u hu hq
      have := claimLt_false_cases u cand hfalse
      simpa [claimLeaseUpdate] using this
    · rw [if_pos (by simp [hch])] at h
      simp at h

/-- Two queued tasks tied on (priority, created_at): the earlier table row
carries the larger id. -/
def c3TaskB : TaskRow :=
  { id := "b", type := "generic", title := "B", prompt := "p", success_criteria := none,
    task_request_json := "", status := TaskStatus.queued, priority := 3, attempt_count := 0,
    max_attempts := 3, lease_owner := none, lease_expires_at := none, last_error := none,
    created_at := "2024-01-01T00:00:00.000Z", updated_at := "2024-01-01T00:00:00.000Z" }

def c3TaskA : TaskRow := { c3TaskB with id := "a", title := "A" }

def c3Store : Store :=
  { tasks := [c3TaskB, c3TaskA], attempts := [], events := [], nextAttemptId := 1 }

/-- Counterexample to C3 as stated: both tasks are queued with equal
priority and equal created_at, the id "a" sorts strictly before "b", yet
claimNextTask claims the task with id "b" (the ORDER BY has no id key; the
earlier table row wins the tie). -/
theorem claimNextTask_no_id_tiebreak_counterexample :
    c3TaskA.status = TaskStatus.queued ∧ c3TaskB.status = TaskStatus.queued ∧
    c3TaskA.priority = c3TaskB.priority ∧ c3TaskA.created_at = c3TaskB.created_at ∧
    strLt c3TaskA.id c3TaskB.id = true ∧
    (claimNextTask c3Store "w1" "2024-01-02T00:00:00.000Z"
        "2024-01-02T00:10:00.000Z").2.map TaskRow.id = some "b" := by
  decide

/-- The row the claim at c3Store produces. -/
def c3Claimed : TaskRow :=
  { c3TaskB with status := TaskStatus.leased, lease_owner := some "w1",
                 lease_expires_at := some "2024-01-02T00:10:00.000Z",
                 updated_at := "2024-01-02T00:00:00.000Z" }

/-- Witness for the amended C3 at the same concrete store. -/
theorem claimNextTask_claims_minimal_witness :
    c3Claimed.status = TaskStatus.leased ∧
    c3Claimed.lease_owner = some "w1" ∧
    ∀ u ∈ (recoverExpiredLeases c3Store "2024-01-02T00:00:00.000Z").1.tasks,
      u.status = TaskStatus.queued →
      c3Claimed.priority < u.priority ∨
        (c3Claimed.priority = u.priority ∧
          strLt u.created_at c3Claimed.created_at = false) :=
  claimNextTask_claims_minimal c3Store "w1" "2024-01-02T00:00:00.000Z"
    "2024-01-02T00:10:00.000Z" c3Claimed (by decide) (by decide)

/-! ### C7: the lease-field invariant -/

/-- Lease fields agree with the status: non-null on leased/running rows,
null everywhere else. -/
def leaseInvariant (t : TaskRow) : Bool :=
  match t.status with
  | TaskStatus.leased => t.lease_owner.isSome && t.lease_expires_at.isSome
  | TaskStatus.running => t.lease_owner.isSome && t.lease_expires_at.isSome
  | _ => t.lease_owner.isNone && t.lease_expires_at.isNone

/-- Well-formedness the repository maintains: primary-key ids are distinct
and every row satisfies the lease invariant. -/
def WF (s : Store) : Prop :=
  (s.tasks.map TaskRow.id).Nodup ∧ ∀ t ∈ s.tasks, leaseInvariant t = true

/-- One repository call, with its impure inputs made explicit. -/
inductive RepoOp where
  | createTask (input : CreateTaskInput) (defaultMaxAttempts : Nat) (id now : String)
  | claimNextTask (workerId now leaseExpiresAt : String)
  | startAttempt (taskId workerId now : String)
  | heartbeatLease (taskId workerId leaseExpiresAt now : String)
  | completeAttempt (taskId workerId : String) (result : CompleteAttemptInput) (now : String)
  | recoverExpiredLeases (now : String)

def applyOp (s : Store) : RepoOp → Store
  | RepoOp.createTask input d id now => (createTask s input d id now).1
  | RepoOp.claimNextTask w now lea => (claimNextTask s w now lea).1
  | RepoOp.startAttempt taskId w now => (startAttempt s taskId w now).1
  | RepoOp.heartbeatLease taskId w lea now => heartbeatLease s taskId w lea now
  | RepoOp.completeAttempt taskId w r now => completeAttempt s taskId w r now
  | RepoOp.recoverExpiredLeases now => (recoverExpiredLeases s now).1

/-- The freshly created database: empty tables. -/
def initialStore : Store := { tasks := [], attempts := [], events := [], nextAttemptId := 1 }

def runOps (ops : List RepoOp) : Store := ops.foldl applyOp initialStore

theorem nodup_ids_map_update (l : List TaskRow) (p : TaskRow → Bool) (f : TaskRow → TaskRow)
    (hf : ∀ t, (f t).id = t.id) (hn : (l.map TaskRow.id).Nodup) :
    ((l.map (fun t => if p t then f t else t)).map TaskRow.id).Nodup := by
  rw [List.map_map]
  have heq : l.map (TaskRow.id ∘ fun t => if p t then f t else t) = l.map TaskRow.id :=
    List.map_congr_left (fun a _ => by by_cases h : p a <;> simp [h, hf])
  rw [heq]
  exact hn

theorem inv_map_update (l : List TaskRow) (p : TaskRow → Bool) (f : TaskRow → TaskRow)
    (hstep : ∀ t ∈ l, leaseInvariant t = true → p t = true → leaseInvariant (f t) = true)
    (hall : ∀ t ∈ l, leaseInvariant t = true) :
    ∀ u ∈ l.map (fun t => if p t then f t else t), leaseInvariant u = true := by
  intro u hu
  obtain ⟨t, ht, hte⟩ := List.mem_map.mp hu
  by_cases hp : p t
  · rw [← hte, if_pos hp]
    exact hstep t ht (hall t ht) hp
  · rw [← hte, if_neg hp]
    exact hall t ht

theorem WF_recoverExpiredLeases (s : Store) (now : String) (h : WF s) :
    WF (recoverExpiredLeases s now).1 := by
  refine ⟨?_, ?_⟩
  · show ((s.tasks.map (fun t => if expiredGuard now t then recoverRow now t else t)).map
      TaskRow.id).Nodup
    exact nodup_ids_map_update s.tasks _ _ (recoverRow_id now) h.1
  · show ∀ u ∈ s.tasks.map (fun t => if expiredGuard now t then recoverRow now t else t), _
    refine inv_map_update s.tasks _ _ ?_ h.2
    intro t _ _ _
    unfold recoverRow leaseInvariant
    by_cases hge : t.attempt_count + 1 ≥ t.max_attempts <;> simp [hge]

theorem WF_claimNextTask (s : Store) (w now lea : String) (h : WF s) :
    WF (claimNextTask s w now lea).1 := by
  have h1 := WF_recoverExpiredLeases s now h
  cases hsel : selectCandidate (recoverExpiredLeases s now).1.tasks with
  | none =>
    simp only [claimNextTask, hsel]
    exact h1
  | some cand =>
    simp only [claimNextTask, hsel]
    have hwf2 : ((((recoverExpiredLeases s now).1.tasks).map (fun t =>
        if claimHit cand.id t then claimLeaseUpdate w now lea t else t)).map
          TaskRow.id).Nodup ∧
        ∀ u ∈ ((recoverExpiredLeases s now).1.tasks).map (fun t =>
          if claimHit cand.id t then claimLeaseUpdate w now lea t else t),
          leaseInvariant u = true := by
      refine ⟨nodup_ids_map_update _ _ _ (claimLeaseUpdate_id w now lea) h1.1, ?_⟩
      refine inv_map_update _ _ _ ?_ h1.2
      intro t _ _ _
      simp [claimLeaseUpdate, leaseInvariant]
    split
    · exact hwf2
    · exact hwf2

theorem WF_startAttempt (s : Store) (taskId w now : String) (h : WF s) :
    WF (startAttempt s taskId w now).1 := by
  cases hfindt : s.tasks.find? (startGuard taskId w) with
  | none =>
    simp only [startAttempt, hfindt]
    exact h
  | some task =>
    cases hexp : task.lease_expires_at with
    | none =>
      simp only [startAttempt, hfindt, hexp]
      exact h
    | some leaseExp =>
      simp only [startAttempt, hfindt, hexp]
      refine ⟨nodup_ids_map_update _ _ _ (fun t => rfl) h.1, ?_⟩
      refine inv_map_update _ _ _ ?_ h.2
      intro t _ hinv hp
      simp only [startGuard, decide_eq_true_eq] at hp
      obtain ⟨-, howner, hstat⟩ := hp
      unfold leaseInvariant at hinv ⊢
      rw [hstat] at hinv
      simp only [howner] at hinv ⊢
      simpa using hinv

theorem WF_heartbeatLease (s : Store) (taskId w lea now : String) (h : WF s) :
    WF (heartbeatLease s taskId w lea now) := by
  unfold heartbeatLease
  dsimp only
  refine ⟨nodup_ids_map_update _ _ _ (fun t => rfl) h.1, ?_⟩
  refine inv_map_update _ _ _ ?_ h.2
  intro t _ _ hp
  simp only [heartbeatGuard, decide_eq_true_eq] at hp
  obtain ⟨-, howner, hstat⟩ := hp
  unfold leaseInvariant
  rcases hstat with hstat | hstat <;> simp [hstat, howner]

theorem WF_completeAttempt (s : Store) (taskId w : String) (r : CompleteAttemptInput)
    (now : String) (h : WF s) : WF (completeAttempt s taskId w r now) := by
  cases hfindt : s.tasks.find? (completeGuard taskId w) with
  | none =>
    simp only [completeAttempt, hfindt]
    exact h
  | some task =>
    simp only [completeAttempt, hfindt]
    refine ⟨nodup_ids_map_update _ _ _ (completeTaskUpdate_id r _ _) h.1, ?_⟩
    refine inv_map_update _ _ _ ?_ h.2
    intro t _ _ _
    unfold completeTaskUpdate leaseInvariant
    by_cases hb : r.blocked
    · simp [hb]
    · by_cases hsu : r.succeeded
      · simp [hb, hsu]
      · by_cases hge : task.attempt_count + 1 ≥ task.max_attempts <;> simp [hb, hsu, hge]

theorem WF_createTask (s : Store) (input : CreateTaskInput) (d : Nat) (id now : String)
    (h : WF s) : WF (createTask s input d id now).1 := by
  unfold createTask
  by_cases hdup : s.tasks.any (fun t => decide (t.id = id)) = true
  · rw [if_pos hdup]
    exact h
  · rw [if_neg hdup]
    dsimp only
    constructor
    · rw [List.map_append, List.nodup_append]
      refine ⟨h.1, List.nodup_singleton _, ?_⟩
      intro a ha hb
      simp only [List.map_cons, List.map_nil, List.mem_singleton] at hb
      obtain ⟨t, ht, hta⟩ := List.mem_map.mp ha
      exact hdup (List.any_eq_true.mpr ⟨t, ht, by simp [hta, hb]⟩)
    · intro t ht
      rcases List.mem_append.mp ht with hmem | hmem
      · exact h.2 t hmem
      · have : t = _ := List.mem_singleton.mp hmem
        rw [this]
        rfl

theorem WF_applyOp (s : Store) (op : RepoOp) (h : WF s) : WF (applyOp s op) := by
  cases op with
  | createTask input d id now => exact WF_createTask s input d id now h
  | claimNextTask w now lea => exact WF_claimNextTask s w now lea h
  | startAttempt taskId w now => exact WF_startAttempt s taskId w now h
  | heartbeatLease taskId w lea now => exact WF_heartbeatLease s taskId w lea now h
  | completeAttempt taskId w r now => exact WF_completeAttempt s taskId w r now h
  | recoverExpiredLeases now => exact WF_recoverExpiredLeases s now h

theorem WF_foldl : ∀ (ops : List RepoOp) (s : Store), WF s → WF (ops.foldl applyOp s) := by
  intro ops
  induction ops with
  | nil => intro s h; exact h
  | cons op ops ih =>
    intro s h
    rw [List.foldl_cons]
    exact ih (applyOp s op) (WF_applyOp s op h)

/-- C7: after any sequence of repository operations, lease_owner and
lease_expires_at are both non-null exactly on leased/running rows and both
null on every other row. -/
theorem repo_lease_invariant (ops : List RepoOp) :
    ∀ t ∈ (runOps ops).tasks,
      ((t.status = TaskStatus.leased ∨ t.status = TaskStatus.running) →
        t.lease_owner ≠ none ∧ t.lease_expires_at ≠ none) ∧
      (¬ (t.status = TaskStatus.leased ∨ t.status = TaskStatus.running) →
        t.lease_owner = none ∧ t.lease_expires_at = none) := by
  intro t ht
  have hwf : WF (runOps ops) :=
    WF_foldl ops initialStore ⟨List.nodup_nil, by intro t ht; cases ht⟩
  have hinv := hwf.2 t ht
  unfold leaseInvariant at hinv
  constructor
  · intro hs
    rcases hs with hs | hs <;> rw [hs] at hinv <;>
      simp only [Bool.and_eq_true, Option.isSome_iff_ne_none] at hinv <;> exact hinv
  · intro hs
    cases hstat : t.status with
    | leased => exact absurd (Or.inl hstat) hs
    | running => exact absurd (Or.inr hstat) hs
    | queued =>
        rw [hstat] at hinv
        simp only [Bool.and_eq_true, Option.isNone_iff_eq_none] at hinv
        exact hinv
    | done =>
        rw [hstat] at hinv
        simp only [Bool.and_eq_true, Option.isNone_iff_eq_none] at hinv
        exact hinv
    | failed =>
        rw [hstat] at hinv
        simp only [Bool.and_eq_true, Option.isNone_iff_eq_none] at hinv
        exact hinv
    | blocked =>
        rw [hstat] at hinv
        simp only [Bool.and_eq_true, Option.isNone_iff_eq_none] at hinv
        exact hinv

def c7Input : CreateTaskInput :=
  { type := none, title := none, prompt := "hello",
    successCriteria := none, metadata := none, mode := none,
    priority := some 3, maxAttempts := some 3 }

def c7Ops : List RepoOp :=
  [RepoOp.createTask c7Input 3 "id-1" "2024-01-01T00:00:00.000Z"]

/-- The row createTask inserts for c7Input. -/
def c7Row : TaskRow :=
  { id := "id-1", type := "generic", title := "Untitled task", prompt := "hello",
    success_criteria := none,
    task_request_json := "\x7b\"metadata\":\x7b\x7d,\"source\":\"api\",\"mode\":\"auto\"\x7d",
    status := TaskStatus.queued, priority := 3, attempt_count := 0, max_attempts := 3,
    lease_owner := none, lease_expires_at := none, last_error := none,
    created_at := "2024-01-01T00:00:00.000Z", updated_at := "2024-01-01T00:00:00.000Z" }

/-- Witness for C7 on a concrete one-operation history. -/
theorem repo_lease_invariant_witness :
    ((c7Row.status = TaskStatus.leased ∨ c7Row.status = TaskStatus.running) →
      c7Row.lease_owner ≠ none ∧ c7Row.lease_expires_at ≠ none) ∧
    (¬ (c7Row.status = TaskStatus.leased ∨ c7Row.status = TaskStatus.running) →
      c7Row.lease_owner = none ∧ c7Row.lease_expires_at = none) :=
  repo_lease_invariant c7Ops c7Row (by decide)

/-! ### C8: strictly increasing envelope sequences -/

/-- Both producers step the shared counter to refValue + 1 and stamp the
envelope with that value. -/
theorem emitStep_components (st : SeqState) (k : EmitKind) :
    (emitStep st k).1.refValue = st.refValue + 1 ∧ (emitStep st k).2 = st.refValue + 1 := by
  cases k <;> exact ⟨rfl, rfl⟩

theorem emitSequences_gt : ∀ (ks : List EmitKind) (st : SeqState),
    ∀ x ∈ emitSequences st ks, st.refValue < x := by
  intro ks
  induction ks with
  | nil =>
    intro st x hx
    cases hx
  | cons k ks ih =>
    intro st x hx
    simp only [emitSequences] at hx
    rcases List.mem_cons.mp hx with rfl | hx2
    · rw [(emitStep_components st k).2]
      exact Nat.lt_succ_self _
    · have := ih (emitStep st k).1 x hx2
      have hr := (emitStep_components st k).1
      omega

theorem emitSequences_pairwise : ∀ (ks : List EmitKind) (st : SeqState),
    (emitSequences st ks).Pairwise (fun a b => a < b) := by
  intro ks
  induction ks with
  | nil => intro st; exact List.Pairwise.nil
  | cons k ks ih =>
    intro st
    simp only [emitSequences]
    refine List.Pairwise.cons ?_ (ih (emitStep st k).1)
    intro x hx
    have := emitSequences_gt ks (emitStep st k).1 x hx
    have hr := (emitStep_components st k).1
    have he := (emitStep_components st k).2
    omega

/-- C8: within one worker run every envelope emitted through the
RunStreamer or the pushRunEvent pusher sharing the run sequence counter
carries a sequence strictly greater than every earlier envelope. -/
theorem emit_sequences_strictly_increasing (ks : List EmitKind) :
    (emitSequences initialSeqState ks).Pairwise (fun a b => a < b) :=
  emitSequences_pairwise ks initialSeqState

/-! ### C9: transaction structure -/

/-- Counterexample to C9 as stated: stopping createTask after its first
statement persists the task INSERT without the task_created event, and a
stopped heartbeatLease persists the task UPDATE without the attempt
UPDATE; neither method wraps its two statements in a transaction. -/
theorem createTask_not_atomic_counterexample :
    ¬ atomicAt createTaskProg 1 ∧ ¬ atomicAt heartbeatLeaseProg 1 ∧
    appliedAfter createTaskProg 1 = [DbWrite.insertTask] := by
  unfold atomicAt
  decide

/-- C9 amended: the four methods wrapped in db.transaction are
all-or-nothing at every stop point; createTask and heartbeatLease are two
bare statements and can be partially applied. -/
theorem transactional_methods_atomic (k n : Nat) (claimed found hasAttempt : Bool) :
    atomicAt (recoverExpiredLeasesProg n) k ∧
    atomicAt (claimNextTaskProg n claimed) k ∧
    atomicAt (startAttemptProg found) k ∧
    atomicAt (completeAttemptProg found hasAttempt) k ∧
    ¬ atomicAt createTaskProg 1 ∧
    ¬ atomicAt heartbeatLeaseProg 1 := by
  have hsingle : ∀ (ws : List DbWrite) (j : Nat), atomicAt [TxUnit.transact ws] j := by
    intro ws j
    cases j with
    | zero => exact Or.inl rfl
    | succ j =>
      right
      show (([TxUnit.transact ws].take (j + 1)).map TxUnit.writes).flatten =
        ([TxUnit.transact ws].map TxUnit.writes).flatten
      simp
  exact ⟨hsingle _ k, hsingle _ k, hsingle _ k, hsingle _ k,
    (by unfold atomicAt; decide), (by unfold atomicAt; decide)⟩

/-! ### C10: ToolExecutor idempotency per action id -/

theorem find_append_right {α : Type} (p : α → Bool) :
    ∀ (l1 l2 : List α), l1.find? p = none → (l1 ++ l2).find? p = l2.find? p := by
  intro l1
  induction l1 with
  | nil => intro l2 _; rfl
  | cons a l1 ih =>
    intro l2 hnone
    cases hpa : p a with
    | true =>
      rw [List.find?_cons_of_pos _ hpa] at hnone
      cases hnone
    | false =>
      rw [List.find?_cons_of_neg _ (by simp [hpa])] at hnone
      rw [List.cons_append, List.find?_cons_of_neg _ (by simp [hpa])]
      exact ih l2 hnone

/-- After any execute call the results map stores the returned ToolResult
under the call's action_id. -/
theorem toolExecute_stores (tools : String → Option ToolFn) (tAt : Nat)
    (results : List (String × ToolResult)) (input : ExecuteInput) :
    ((toolExecute tools tAt results input).2.1).find?
        (fun kv => decide (kv.1 = input.action_id)) =
      some (input.action_id, (toolExecute tools tAt results input).1) := by
  cases hfind : results.find? (fun kv => decide (kv.1 = input.action_id)) with
  | some kv =>
    have hp := List.find?_some hfind
    simp only [decide_eq_true_eq] at hp
    simp only [toolExecute, hfind]
    cases kv with
    | mk k v =>
      simp only at hp
      rw [hp]
  | none =>
    cases htool : tools input.tool with
    | none =>
      simp only [toolExecute, hfind, htool]
      rw [find_append_right _ results _ hfind]
      simp [List.find?]
    | some fn =>
      cases hrun : fn input.args with
      | error msg =>
        simp only [toolExecute, hfind, htool, hrun]
        rw [find_append_right _ results _ hfind]
        simp [List.find?]
      | ok raw =>
        simp only [toolExecute, hfind, htool, hrun]
        by_cases htr : (jsonEncode raw).length > tAt
        · rw [if_pos htr]
          rw [find_append_right _ results _ hfind]
          simp [List.find?]
        · rw [if_neg htr]
          rw [find_append_right _ results _ hfind]
          simp [List.find?]

/-- An execute call whose action_id is already stored returns the stored
result, leaves the map unchanged and calls no tool. -/
theorem toolExecute_found (tools : String → Option ToolFn) (tAt : Nat)
    (results : List (String × ToolResult)) (input : ExecuteInput)
    (kv : String × ToolResult)
    (h : results.find? (fun kv => decide (kv.1 = input.action_id)) = some kv) :
    toolExecute tools tAt results input = (kv.2, results, []) := by
  simp only [toolExecute, h]

/-- C10: executing the same action_id twice returns exactly the stored
first result, keeps the results map unchanged and performs no underlying
tool invocation, whatever the second call's tool or arguments are. -/
theorem toolExecute_idempotent (tools : String → Option ToolFn) (tAt : Nat)
    (results : List (String × ToolResult)) (input input2 : ExecuteInput)
    (hid : input2.action_id = input.action_id) :
    toolExecute tools tAt (toolExecute tools tAt results input).2.1 input2 =
      ((toolExecute tools tAt results input).1,
       (toolExecute tools tAt results input).2.1, []) := by
  have hst := toolExecute_stores tools tAt results input
  exact toolExecute_found tools tAt _ input2
    (input.action_id, (toolExecute tools tAt results input).1)
    (by rw [hid]; exact hst)

def c10Tools : String → Option ToolFn :=
  fun name => if name = "echo" then some (fun args => Except.ok args) else none

def c10Input : ExecuteInput :=
  { action_id := "a1", tool := "echo", args := Json.str "x", idempotency_key := "ik1" }

def c10Input2 : ExecuteInput :=
  { action_id := "a1", tool := "other", args := Json.null, idempotency_key := "ik2" }

/-- Witness for C10: a repeat of action a1 with a different tool and
arguments replays the stored result without any tool call. -/
theorem toolExecute_idempotent_witness :
    toolExecute c10Tools 8000 (toolExecute c10Tools 8000 [] c10Input).2.1 c10Input2 =
      ((toolExecute c10Tools 8000 [] c10Input).1,
       (toolExecute c10Tools 8000 [] c10Input).2.1, []) :=
  toolExecute_idempotent c10Tools 8000 [] c10Input c10Input2 rfl

end LoopSpec
